import Mathlib

/-!
Verification of the rqtl2 geno/kinship engine (Rust sources:
`src/lib.rs`, `src/util/kinship.rs`, `src/reader.rs`).

Modelling conventions used throughout:

* `f64` values are modelled as `ℚ`; the claims under study are about which
  values are combined and where, not about floating-point rounding.
* A flat `Vec<f64>` that is only ever indexed in bounds (the kinship
  matrices, which the source addresses through computed flat indices such
  as `j * ids_num + i`) is modelled as a total function `Nat → ℚ` with
  pointwise update `store`; `v[idx] = e` becomes `store m idx e` and
  `v[idx]` becomes `m idx`.
* The read buffer (whose *length* drives the loop bounds: `k = snps.len()
  / n`, `resize`, `chunks_mut`) is kept as a `List ℚ`.
* Rust text lines are modelled as `List Char` (one entry per decoded
  line, terminating newlines already stripped); file streams are the list
  of remaining lines.  `panic!`/`assert!`/`expect` terminations are
  modelled as `Except.error` results carrying the panic message.
-/

namespace RqtlKinship

/-- Pointwise update of a flat buffer modelled as a function: the effect of
the Rust statement `v[idx] = val`. -/
def store (m : Nat → ℚ) (idx : Nat) (val : ℚ) : Nat → ℚ :=
  fun y => if y = idx then val else m y

/-! ### CPU kernel (`calc_partial_kinship`, src/util/kinship.rs lines 185-228
and the identical copy in src/lib.rs lines 342-382)

The Rust loop nest is

    for j in 0..n {
      for l in 0..k {
        for i in j..n {
          partial_matrix[j * ids_num + i] +=
            snps[l * ids_num + j] * snps[l * ids_num + i];
        }
      }
    }

with `n = ids_num` and `k = snps.len() / n`.  Each loop level is one
definition below, so the traversal order of the source is the structure of
the term. -/

/-- Body of the innermost loop of `calc_partial_kinship`: one `+=` at cell
`j*n + i`. -/
def kin_step (snps : List ℚ) (n j l : Nat) (pm : Nat → ℚ) (i : Nat) : Nat → ℚ :=
  store pm (j * n + i) (pm (j * n + i) + snps.getD (l * n + j) 0 * snps.getD (l * n + i) 0)

/-- Innermost loop `for i in j..n` of `calc_partial_kinship`. -/
def kin_inner (snps : List ℚ) (n j l : Nat) (pm : Nat → ℚ) : Nat → ℚ :=
  List.foldl (kin_step snps n j l) pm (List.range' j (n - j))

/-- Middle loop `for l in 0..k` of `calc_partial_kinship`. -/
def kin_mid (snps : List ℚ) (n k j : Nat) (pm : Nat → ℚ) : Nat → ℚ :=
  List.foldl (fun pm l => kin_inner snps n j l pm) pm (List.range k)

/-- `calc_partial_kinship` (CPU kernel): the rank-K symmetric update of the
upper triangle of `partial_matrix`, exactly in the source's loop order. -/
def calc_partial_kinship (snps : List ℚ) (partial_matrix : Nat → ℚ) (ids_num : Nat) :
    Nat → ℚ :=
  List.foldl (fun pm j => kin_mid snps ids_num (snps.length / ids_num) j pm)
    partial_matrix (List.range ids_num)

/-- The sequence of loop-index triples `(j, l, i)` visited by the kernel, in
the source's exact traversal order: outer `j`, then batch row `l`, then `i`
from `j` to `n - 1`. -/
def kernel_trace (n k : Nat) : List (Nat × Nat × Nat) :=
  (List.range n).flatMap fun j =>
    (List.range k).flatMap fun l =>
      (List.range' j (n - j)).map fun i => (j, l, i)

/-! ### Decode lemmas for the flat index `a * D + b` -/

theorem flat_div {b D : Nat} (a : Nat) (hb : b < D) : (a * D + b) / D = a := by
  have hD : 0 < D := Nat.pos_of_ne_zero (by omega)
  rw [Nat.add_comm, Nat.add_mul_div_right _ _ hD, Nat.div_eq_of_lt hb]
  omega

theorem flat_mod {b D : Nat} (a : Nat) (hb : b < D) : (a * D + b) % D = b := by
  rw [Nat.add_comm, Nat.add_mul_mod_self_right, Nat.mod_eq_of_lt hb]

theorem eq_flat_iff {a b D x : Nat} (hb : b < D) :
    x = a * D + b ↔ (x / D = a ∧ x % D = b) := by
  constructor
  · rintro rfl
    exact ⟨flat_div a hb, flat_mod a hb⟩
  · rintro ⟨h1, h2⟩
    rw [← h1, ← h2]
    exact (Nat.div_add_mod' x D).symm

theorem store_self (m : Nat → ℚ) (idx : Nat) (v : ℚ) : store m idx v idx = v := by
  simp [store]

theorem store_ne (m : Nat → ℚ) {idx y : Nat} (v : ℚ) (h : y ≠ idx) :
    store m idx v y = m y := by
  simp [store, h]

/-! ### Closed form of the kernel, one loop level at a time -/

theorem sum_range_split {M : Type} [AddCommMonoid M] (f : Nat → M) (a b : Nat) :
    ∑ i ∈ Finset.range (a + b), f i
      = (∑ i ∈ Finset.range a, f i) + ∑ i ∈ Finset.range b, f (a + i) := by
  induction b with
  | zero => simp
  | succ b ih =>
      rw [show a + (b + 1) = (a + b) + 1 from rfl, Finset.sum_range_succ, ih,
        Finset.sum_range_succ, add_assoc]

theorem kin_inner_fold_spec (snps : List ℚ) (n j l : Nat) :
    ∀ (m s : Nat), s + m ≤ n → ∀ (pm : Nat → ℚ) (x : Nat),
      List.foldl (kin_step snps n j l) pm (List.range' s m) x
        = if x / n = j ∧ s ≤ x % n ∧ x % n < s + m then
            pm x + snps.getD (l * n + j) 0 * snps.getD (l * n + x % n) 0
          else pm x := by
  intro m
  induction m with
  | zero =>
      intro s hs pm x
      rw [if_neg (by omega)]
      rfl
  | succ m ih =>
      intro s hs pm x
      have hsn : s < n := by omega
      rw [List.range'_succ, List.foldl_cons, ih (s + 1) (by omega)]
      by_cases hx : x = j * n + s
      · have hdm := (eq_flat_iff hsn).mp hx
        rw [if_neg (by rw [hdm.2]; omega), if_pos ⟨hdm.1, by rw [hdm.2]; omega⟩]
        simp only [kin_step, store, if_pos hx, hdm.2]
        rw [hx]
      · have hne : ¬(x / n = j ∧ x % n = s) := fun h => hx ((eq_flat_iff hsn).mpr h)
        simp only [kin_step, store, if_neg hx]
        by_cases hq : x / n = j
        · have hr : x % n ≠ s := fun h => hne ⟨hq, h⟩
          by_cases hb : s ≤ x % n ∧ x % n < s + (m + 1)
          · rw [if_pos ⟨hq, by omega, by omega⟩, if_pos ⟨hq, hb.1, hb.2⟩]
          · rw [if_neg (by omega), if_neg (by omega)]
        · rw [if_neg (by tauto), if_neg (by tauto)]

theorem kin_mid_fold_spec (snps : List ℚ) (n j : Nat) (hj : j < n) :
    ∀ (m t : Nat) (pm : Nat → ℚ) (x : Nat),
      List.foldl (fun pm l => kin_inner snps n j l pm) pm (List.range' t m) x
        = if x / n = j ∧ j ≤ x % n then
            pm x + ∑ d ∈ Finset.range m,
              snps.getD ((t + d) * n + j) 0 * snps.getD ((t + d) * n + x % n) 0
          else pm x := by
  intro m
  induction m with
  | zero =>
      intro t pm x
      rw [show List.range' t 0 = [] from rfl]
      simp only [List.foldl_nil, Finset.range_zero, Finset.sum_empty]
      split <;> simp
  | succ m ih =>
      intro t pm x
      have hmod : x % n < n := Nat.mod_lt x (by omega)
      rw [List.range'_succ, List.foldl_cons, ih (t + 1)]
      have hinner : kin_inner snps n j t pm x
          = if x / n = j ∧ j ≤ x % n then
              pm x + snps.getD (t * n + j) 0 * snps.getD (t * n + x % n) 0
            else pm x := by
        unfold kin_inner
        rw [kin_inner_fold_spec snps n j t (n - j) j (by omega)]
        by_cases hc : x / n = j ∧ j ≤ x % n
        · rw [if_pos ⟨hc.1, hc.2, by omega⟩, if_pos hc]
        · rw [if_neg (by tauto), if_neg hc]
      by_cases hc : x / n = j ∧ j ≤ x % n
      · rw [if_pos hc, if_pos hc, hinner, if_pos hc]
        have hsum : ∑ d ∈ Finset.range m,
            snps.getD ((t + 1 + d) * n + j) 0 * snps.getD ((t + 1 + d) * n + x % n) 0
            = ∑ d ∈ Finset.range m,
              snps.getD ((t + (d + 1)) * n + j) 0 * snps.getD ((t + (d + 1)) * n + x % n) 0 :=
          Finset.sum_congr rfl (fun d _ => by
            rw [show t + 1 + d = t + (d + 1) from by omega])
        rw [hsum, Finset.sum_range_succ' (fun d =>
          snps.getD ((t + d) * n + j) 0 * snps.getD ((t + d) * n + x % n) 0) m,
          Nat.add_zero]
        ring
      · rw [if_neg hc, if_neg hc, hinner, if_neg hc]

theorem kin_outer_fold_spec (snps : List ℚ) (n k : Nat) :
    ∀ (m t : Nat), t + m ≤ n → ∀ (pm : Nat → ℚ) (x : Nat),
      List.foldl (fun pm j => kin_mid snps n k j pm) pm (List.range' t m) x
        = if t ≤ x / n ∧ x / n < t + m ∧ x / n ≤ x % n then
            pm x + ∑ l ∈ Finset.range k,
              snps.getD (l * n + x / n) 0 * snps.getD (l * n + x % n) 0
          else pm x := by
  intro m
  induction m with
  | zero =>
      intro t ht pm x
      rw [if_neg (by omega)]
      rfl
  | succ m ih =>
      intro t ht pm x
      rw [List.range'_succ, List.foldl_cons, ih (t + 1) (by omega)]
      have hmid : kin_mid snps n k t pm x
          = if x / n = t ∧ t ≤ x % n then
              pm x + ∑ l ∈ Finset.range k,
                snps.getD (l * n + t) 0 * snps.getD (l * n + x % n) 0
            else pm x := by
        unfold kin_mid
        rw [List.range_eq_range',
          kin_mid_fold_spec snps n t (by omega) k 0 pm x]
        by_cases hc : x / n = t ∧ t ≤ x % n
        · rw [if_pos hc, if_pos hc]
          congr 1
          exact Finset.sum_congr rfl (fun d _ => by rw [Nat.zero_add])
        · rw [if_neg hc, if_neg hc]
      by_cases hq : x / n = t
      · have hqt : ¬(t + 1 ≤ x / n ∧ x / n < t + 1 + m ∧ x / n ≤ x % n) := by omega
        rw [if_neg hqt, hmid]
        by_cases hr : t ≤ x % n
        · rw [if_pos ⟨hq, hr⟩, if_pos ⟨by omega, by omega, by omega⟩, hq]
        · have h2 : ¬(x / n = t ∧ t ≤ x % n) := fun h => hr h.2
          have h3 : ¬(t ≤ x / n ∧ x / n < t + (m + 1) ∧ x / n ≤ x % n) := by omega
          rw [if_neg h2, if_neg h3]
      · have h2 : ¬(x / n = t ∧ t ≤ x % n) := fun h => hq h.1
        rw [hmid, if_neg h2]
        by_cases hc : t + 1 ≤ x / n ∧ x / n < t + 1 + m ∧ x / n ≤ x % n
        · rw [if_pos hc, if_pos ⟨by omega, by omega, hc.2.2⟩]
        · have h3 : ¬(t ≤ x / n ∧ x / n < t + (m + 1) ∧ x / n ≤ x % n) := by omega
          rw [if_neg hc, if_neg h3]

/-- Closed form of the CPU kernel: cell `x` of the result.  A cell inside the
matrix whose decoded column index `x / n` does not exceed its row index
`x % n` (the covered upper triangle in the source's `j * n + i` flattening)
accumulates the rank-K sum; every other cell is untouched. -/
theorem calc_partial_kinship_spec (snps : List ℚ) (partial_matrix : Nat → ℚ)
    (n : Nat) (x : Nat) :
    calc_partial_kinship snps partial_matrix n x
      = if x / n < n ∧ x / n ≤ x % n then
          partial_matrix x + ∑ l ∈ Finset.range (snps.length / n),
            snps.getD (l * n + x / n) 0 * snps.getD (l * n + x % n) 0
        else partial_matrix x := by
  unfold calc_partial_kinship
  rw [List.range_eq_range', kin_outer_fold_spec snps n _ n 0 (by omega)]
  by_cases hc : x / n < n ∧ x / n ≤ x % n
  · rw [if_pos ⟨Nat.zero_le _, by omega, hc.2⟩, if_pos hc]
  · rw [if_neg (by omega), if_neg hc]

/-- Folding over a flattened (`flatMap`) index list is folding the inner
lists one after the other. -/
theorem foldl_flatMap {α β γ : Type} (l : List α) (g : α → List β) (f : γ → β → γ)
    (init : γ) :
    List.foldl f init (l.flatMap g) = l.foldl (fun acc a => (g a).foldl f acc) init := by
  induction l generalizing init with
  | nil => rfl
  | cons a l ih => simp [List.foldl_append, ih]

/-- The kernel is literally the fold of its single `+=` statement over
`kernel_trace`, the loop-index sequence in the source's traversal order. -/
theorem calc_partial_kinship_eq_trace_foldl (snps : List ℚ) (partial_matrix : Nat → ℚ)
    (n : Nat) :
    calc_partial_kinship snps partial_matrix n
      = List.foldl (fun pm e => kin_step snps n e.1 e.2.1 pm e.2.2) partial_matrix
          (kernel_trace n (snps.length / n)) := by
  unfold calc_partial_kinship kernel_trace kin_mid kin_inner
  simp only [foldl_flatMap, List.foldl_map]

/-! ### Finalization (`mirror_and_scale_kinship`, src/util/kinship.rs lines
305-313, and the inlined normalize-and-mirror loop of `calc_kinship`,
src/lib.rs lines 314-320)

The Rust loops are

    for i in 0..ids_num {
      for j in 0..=i {
        m[j * row_length + i] *= scale;            // resp.  /= total_snps_read
        m[i * row_length + j] = m[j * row_length + i];
      }
    }
-/

/-- Body of the inner loop of `mirror_and_scale_kinship`: scale the covered
cell `j*D + i`, then mirror it into `i*D + j`. -/
def mirror_step (ids_num : Nat) (scale : ℚ) (i : Nat) (m : Nat → ℚ) (j : Nat) :
    Nat → ℚ :=
  let m1 := store m (j * ids_num + i) (m (j * ids_num + i) * scale)
  store m1 (i * ids_num + j) (m1 (j * ids_num + i))

/-- `mirror_and_scale_kinship` (src/util/kinship.rs): scale the covered
triangle and mirror it into the other half. -/
def mirror_and_scale_kinship (common_kinship_matrix : Nat → ℚ) (ids_num : Nat)
    (scale : ℚ) : Nat → ℚ :=
  List.foldl (fun m i => List.foldl (mirror_step ids_num scale i) m (List.range (i + 1)))
    common_kinship_matrix (List.range ids_num)

/-- Body of the inner loop of the finalization in `calc_kinship`
(src/lib.rs lines 314-320): divide the covered cell by `total_snps_read`,
then mirror it. -/
def finalize_step (ids_num : Nat) (total_snps_read : ℚ) (i : Nat) (m : Nat → ℚ)
    (j : Nat) : Nat → ℚ :=
  let m1 := store m (j * ids_num + i) (m (j * ids_num + i) / total_snps_read)
  store m1 (i * ids_num + j) (m1 (j * ids_num + i))

/-- The normalize-and-mirror loop inlined at the end of `calc_kinship`
(src/lib.rs lines 312-320). -/
def calc_kinship_finalize (res : Nat → ℚ) (ids_num : Nat) (total_snps_read : ℚ) :
    Nat → ℚ :=
  List.foldl
    (fun m i => List.foldl (finalize_step ids_num total_snps_read i) m (List.range (i + 1)))
    res (List.range ids_num)

theorem mirror_inner_fold_spec (D : Nat) (s : ℚ) (i : Nat) (hi : i < D) :
    ∀ (u : Nat), u ≤ i + 1 → ∀ (m : Nat → ℚ) (x : Nat),
      List.foldl (mirror_step D s i) m (List.range u) x
        = if x % D = i ∧ x / D < u then m x * s
          else if x / D = i ∧ x % D < u then m (x % D * D + x / D) * s
          else m x := by
  intro u
  induction u with
  | zero =>
      intro _ m x
      rw [if_neg (show ¬(x % D = i ∧ x / D < 0) from fun h => Nat.not_lt_zero _ h.2),
        if_neg (show ¬(x / D = i ∧ x % D < 0) from fun h => Nat.not_lt_zero _ h.2)]
      rfl
  | succ u ih =>
      intro hu m x
      have huD : u < D := by omega
      rw [List.range_succ, List.foldl_append, List.foldl_cons, List.foldl_nil]
      have hP := ih (by omega) m
      have hPx0 : List.foldl (mirror_step D s i) m (List.range u) (u * D + i)
          = m (u * D + i) := by
        rw [hP, flat_mod u hi, flat_div u hi,
          if_neg (show ¬(i = i ∧ u < u) by omega),
          if_neg (show ¬(u = i ∧ i < u) by omega)]
      simp only [mirror_step, store_self]
      by_cases hx1 : x = i * D + u
      · rw [hx1, store_self]
        by_cases hui : u = i
        · subst hui
          rw [hPx0, flat_mod u huD, flat_div u huD, if_pos ⟨rfl, by omega⟩]
        · rw [hPx0, flat_mod i huD, flat_div i huD, if_neg (by omega),
            if_pos ⟨rfl, by omega⟩]
      · by_cases hx0 : x = u * D + i
        · rw [store_ne _ _ hx1, hx0, store_self, hPx0, flat_mod u hi, flat_div u hi,
            if_pos ⟨rfl, by omega⟩]
        · rw [store_ne _ _ hx1, store_ne _ _ hx0, hP x]
          have hd0 : ¬(x / D = u ∧ x % D = i) := fun h => hx0 ((eq_flat_iff hi).mpr h)
          have hd1 : ¬(x / D = i ∧ x % D = u) := fun h => hx1 ((eq_flat_iff huD).mpr h)
          by_cases hA : x % D = i ∧ x / D < u + 1
          · have hnu : x / D ≠ u := fun h => hd0 ⟨h, hA.1⟩
            rw [if_pos (show x % D = i ∧ x / D < u from ⟨hA.1, by omega⟩), if_pos hA]
          · by_cases hB : x / D = i ∧ x % D < u + 1
            · have hnu : x % D ≠ u := fun h => hd1 ⟨hB.1, h⟩
              have hc1u : ¬(x % D = i ∧ x / D < u) := fun h => hA ⟨h.1, by omega⟩
              rw [if_neg hc1u, if_pos (show x / D = i ∧ x % D < u from ⟨hB.1, by omega⟩),
                if_neg hA, if_pos hB]
            · have hc1u : ¬(x % D = i ∧ x / D < u) := fun h => hA ⟨h.1, by omega⟩
              have hc2u : ¬(x / D = i ∧ x % D < u) := fun h => hB ⟨h.1, by omega⟩
              rw [if_neg hc1u, if_neg hc2u, if_neg hA, if_neg hB]

theorem mirror_outer_fold_spec (D : Nat) (s : ℚ) :
    ∀ (c t : Nat), t + c ≤ D → ∀ (m : Nat → ℚ) (x : Nat),
      List.foldl (fun m i => List.foldl (mirror_step D s i) m (List.range (i + 1))) m
          (List.range' t c) x
        = if (t ≤ x / D ∨ t ≤ x % D) ∧ x / D < t + c ∧ x % D < t + c then
            (if x / D ≤ x % D then m x * s else m (x % D * D + x / D) * s)
          else m x := by
  intro c
  induction c with
  | zero =>
      intro t ht m x
      rw [if_neg (show ¬((t ≤ x / D ∨ t ≤ x % D) ∧ x / D < t + 0 ∧ x % D < t + 0)
        by omega)]
      rfl
  | succ c ih =>
      intro t ht m x
      have htD : t < D := by omega
      have hbD : x % D < D := Nat.mod_lt x (by omega)
      rw [List.range'_succ, List.foldl_cons, ih (t + 1) (by omega)]
      have hM1 := mirror_inner_fold_spec D s t htD (t + 1) (le_refl _) m
      by_cases hIH : (t + 1 ≤ x / D ∨ t + 1 ≤ x % D) ∧ x / D < t + 1 + c ∧
          x % D < t + 1 + c
      · have haD : x / D < D := by omega
        have hMx : List.foldl (mirror_step D s t) m (List.range (t + 1)) x = m x := by
          rw [hM1 x, if_neg (show ¬(x % D = t ∧ x / D < t + 1) by omega),
            if_neg (show ¬(x / D = t ∧ x % D < t + 1) by omega)]
        rw [if_pos hIH, if_pos (show (t ≤ x / D ∨ t ≤ x % D) ∧ x / D < t + (c + 1) ∧
          x % D < t + (c + 1) by omega)]
        by_cases hab : x / D ≤ x % D
        · rw [if_pos hab, if_pos hab, hMx]
        · have hsw : List.foldl (mirror_step D s t) m (List.range (t + 1))
              (x % D * D + x / D) = m (x % D * D + x / D) := by
            rw [hM1 _, flat_mod (x % D) haD, flat_div (x % D) haD,
              if_neg (show ¬(x / D = t ∧ x % D < t + 1) by omega),
              if_neg (show ¬(x % D = t ∧ x / D < t + 1) by omega)]
          rw [if_neg hab, if_neg hab, hsw]
      · rw [if_neg hIH]
        by_cases hR : (t ≤ x / D ∨ t ≤ x % D) ∧ x / D < t + (c + 1) ∧ x % D < t + (c + 1)
        · have hat : x / D ≤ t := by omega
          have hbt : x % D ≤ t := by omega
          rw [if_pos hR]
          by_cases hab : x / D ≤ x % D
          · rw [if_pos hab, hM1 x, if_pos (show x % D = t ∧ x / D < t + 1 by omega)]
          · rw [if_neg hab, hM1 x,
              if_neg (show ¬(x % D = t ∧ x / D < t + 1) by omega),
              if_pos (show x / D = t ∧ x % D < t + 1 by omega)]
        · rw [if_neg hR, hM1 x,
            if_neg (show ¬(x % D = t ∧ x / D < t + 1) by omega),
            if_neg (show ¬(x / D = t ∧ x % D < t + 1) by omega)]

/-- Closed form of `mirror_and_scale_kinship`: inside the matrix the covered
cell (column `x / D` at most row `x % D`) is scaled, the opposite cell
receives the scaled mirror value, everything else is untouched. -/
theorem mirror_and_scale_kinship_spec (ckm : Nat → ℚ) (D : Nat) (s : ℚ) (x : Nat) :
    mirror_and_scale_kinship ckm D s x
      = if x / D < D ∧ x % D < D then
          (if x / D ≤ x % D then ckm x * s else ckm (x % D * D + x / D) * s)
        else ckm x := by
  unfold mirror_and_scale_kinship
  rw [List.range_eq_range', mirror_outer_fold_spec D s D 0 (by omega)]
  by_cases hc : x / D < D ∧ x % D < D
  · rw [if_pos (show (0 ≤ x / D ∨ 0 ≤ x % D) ∧ x / D < 0 + D ∧ x % D < 0 + D by omega),
      if_pos hc]
  · rw [if_neg (show ¬((0 ≤ x / D ∨ 0 ≤ x % D) ∧ x / D < 0 + D ∧ x % D < 0 + D)
      by omega), if_neg hc]

theorem finalize_step_eq (D : Nat) (t : ℚ) : finalize_step D t = mirror_step D t⁻¹ := by
  funext i m j y
  simp only [finalize_step, mirror_step, div_eq_mul_inv]

/-- The inlined finalization of `calc_kinship` is `mirror_and_scale_kinship`
with the reciprocal of `total_snps_read` as the scale. -/
theorem calc_kinship_finalize_eq_mirror (res : Nat → ℚ) (D : Nat) (t : ℚ) :
    calc_kinship_finalize res D t = mirror_and_scale_kinship res D t⁻¹ := by
  unfold calc_kinship_finalize mirror_and_scale_kinship
  rw [finalize_step_eq]

/-- Closed form of the normalize-and-mirror loop of `calc_kinship`. -/
theorem calc_kinship_finalize_spec (res : Nat → ℚ) (D : Nat) (t : ℚ) (x : Nat) :
    calc_kinship_finalize res D t x
      = if x / D < D ∧ x % D < D then
          (if x / D ≤ x % D then res x / t else res (x % D * D + x / D) / t)
        else res x := by
  rw [calc_kinship_finalize_eq_mirror, mirror_and_scale_kinship_spec]
  simp only [div_eq_mul_inv]

/-! ### Batch reading and the dispatch loop of `calc_kinship` (src/lib.rs)

`GenoParser::fill_buffer` (src/lib.rs lines 132-144) zips
`fill_buf.chunks_mut(snp_line_size)` with the line iterator and parses one
line into each chunk (`parse_into` demands the chunk length equal the SNP
count of the line); it returns how many lines it consumed.  Rows arrive
here already decoded (`List ℚ`); a length mismatch is the fatal
`parse_into` format error.

`calc_kinship` (src/lib.rs lines 202-322) repeatedly fills a recycled read
buffer, truncates it to `rows_read * ids_num` when the batch is short
(`buf.resize`, lines 260-263), runs `calc_partial_kinship` into the
(zeroed) per-buffer result matrix, merges that matrix into the shared
accumulator while re-zeroing it (lines 277-284), and finally asserts
`total_snps_read >= ids_num` and normalizes and mirrors.  The worker
threads only pipeline these same steps, and batch contributions commute,
so the loop is modelled sequentially with a single recycled buffer pair;
the recursion is driven by fuel (one unit per loop iteration, so
`lines.length` units suffice). -/

/-- `GenoParser::fill_buffer`: write each row into the next
`snp_line_size`-chunk of `fill_buf`, stopping when the chunks or the rows
run out; returns the filled buffer and the number of rows consumed. -/
def fill_buffer (snp_line_size : Nat) : List ℚ → List (List ℚ) →
    Except String (List ℚ × Nat)
  | buf, [] => Except.ok (buf, 0)
  | buf, r :: rs =>
    if buf.length = 0 then Except.ok (buf, 0)
    else if min snp_line_size buf.length ≠ r.length then
      Except.error "Invalid record: mismatched markers and snps count."
    else
      match fill_buffer snp_line_size (buf.drop snp_line_size) rs with
      | Except.error e => Except.error e
      | Except.ok (tail, cnt) => Except.ok (r ++ tail, cnt + 1)

/-- The dispatch loop of `calc_kinship`: fill the read buffer, stop on an
empty read, truncate a short batch to `rows_read * D`, run the kernel into
the result buffer, merge it into the accumulator and hand back a zeroed
result buffer, and continue with the remaining lines. -/
def calc_kinship_go (D bs : Nat) :
    Nat → List (List ℚ) → List ℚ → (Nat → ℚ) → (Nat → ℚ) → Nat →
    Except String ((Nat → ℚ) × Nat)
  | 0, _, _, _, acc, total => Except.ok (acc, total)
  | fuel + 1, lines, buf, kbuf, acc, total =>
    match fill_buffer D buf lines with
    | Except.error e => Except.error e
    | Except.ok (buf1, n) =>
      if n = 0 then Except.ok (acc, total)
      else
        let buf2 := if n < bs then buf1.take (n * D) else buf1
        let kbuf1 := calc_partial_kinship buf2 kbuf D
        calc_kinship_go D bs fuel (lines.drop n) buf2 (fun _ => 0)
          (fun x => acc x + kbuf1 x) (total + n)

/-- `GenoParser::calc_kinship` (src/lib.rs lines 202-322): reject a batch
size below 1 (source: `panic!`), run the dispatch loop over the decoded
rows, reject `total_snps_read < ids_num` (source: `assert!`), then
normalize and mirror. -/
def calc_kinship (lines : List (List ℚ)) (ids_num batch_size : Nat) :
    Except String (Nat → ℚ) :=
  if batch_size < 1 then Except.error "Batch size cannot be less than 1."
  else
    (calc_kinship_go ids_num batch_size lines.length lines
        (List.replicate (batch_size * ids_num) 0) (fun _ => 0) (fun _ => 0) 0).bind
      fun p =>
        if p.2 < ids_num then
          Except.error "Amount of SNPS should be greater or equal to amount of ids."
        else Except.ok (calc_kinship_finalize p.1 ids_num (p.2 : ℚ))

/-- The covered-triangle contribution of a decoded row stream: what cell `x`
of the accumulator should hold after all rows have been processed. -/
def stream_upper_cell (rows : List (List ℚ)) (D x : Nat) : ℚ :=
  if x / D < D ∧ x / D ≤ x % D then
    ∑ l ∈ Finset.range rows.length,
      (rows.getD l []).getD (x / D) 0 * (rows.getD l []).getD (x % D) 0
  else 0

theorem flatten_length_const {rows : List (List ℚ)} {D : Nat}
    (h : ∀ r ∈ rows, r.length = D) : rows.flatten.length = rows.length * D := by
  induction rows with
  | nil => simp
  | cons r rs ih =>
      simp only [List.flatten_cons, List.length_append, List.length_cons]
      rw [h r (by simp), ih (fun r' hr' => h r' (by simp [hr']))]
      ring

theorem flatten_getD {rows : List (List ℚ)} {D : Nat} (h : ∀ r ∈ rows, r.length = D) :
    ∀ (l j : Nat), l < rows.length → j < D →
      rows.flatten.getD (l * D + j) 0 = (rows.getD l []).getD j 0 := by
  induction rows with
  | nil => intro l j hl _; simp at hl
  | cons r rs ih =>
      intro l j hl hj
      match l with
      | 0 =>
          simp only [List.flatten_cons, Nat.zero_mul, Nat.zero_add]
          rw [List.getD_append _ _ _ j (by rw [h r (by simp)]; exact hj)]
          rfl
      | l + 1 =>
          simp only [List.flatten_cons, Nat.succ_mul]
          rw [List.getD_append_right _ _ _ _ (by rw [h r (by simp)]; omega)]
          rw [h r (by simp), show l * D + D + j - D = l * D + j from by omega]
          rw [ih (fun r' hr' => h r' (by simp [hr'])) l j (by simp at hl; omega) hj]
          rfl

theorem calc_partial_kinship_flatten (rows : List (List ℚ)) (D : Nat) (hD : 0 < D)
    (h : ∀ r ∈ rows, r.length = D) (x : Nat) :
    calc_partial_kinship rows.flatten (fun _ => 0) D x = stream_upper_cell rows D x := by
  rw [calc_partial_kinship_spec]
  unfold stream_upper_cell
  by_cases hc : x / D < D ∧ x / D ≤ x % D
  · rw [if_pos hc, if_pos hc, flatten_length_const h, Nat.mul_div_cancel _ hD, zero_add]
    refine Finset.sum_congr rfl (fun l hl => ?_)
    rw [flatten_getD h l (x / D) (Finset.mem_range.mp hl) hc.1,
      flatten_getD h l (x % D) (Finset.mem_range.mp hl) (Nat.mod_lt x hD)]
  · rw [if_neg hc, if_neg hc]

theorem stream_upper_cell_append (A B : List (List ℚ)) (D x : Nat) :
    stream_upper_cell (A ++ B) D x
      = stream_upper_cell A D x + stream_upper_cell B D x := by
  unfold stream_upper_cell
  by_cases hc : x / D < D ∧ x / D ≤ x % D
  · rw [if_pos hc, if_pos hc, if_pos hc, List.length_append, sum_range_split]
    congr 1
    · refine Finset.sum_congr rfl (fun l hl => ?_)
      rw [List.getD_append _ _ _ l (Finset.mem_range.mp hl)]
    · refine Finset.sum_congr rfl (fun l _ => ?_)
      rw [List.getD_append_right _ _ _ _ (by omega), Nat.add_sub_cancel_left]
  · rw [if_neg hc, if_neg hc, if_neg hc, add_zero]

/-- What `fill_buffer` does on a buffer of exactly `c` chunks of decoded
rows: the first `min c lines.length` chunks are overwritten by the rows, in
order, the tail of the buffer keeps its old content, and the row count is
returned. -/
theorem fill_buffer_spec (D : Nat) (hD : 0 < D) :
    ∀ (lines : List (List ℚ)) (c : Nat) (buf : List ℚ),
      buf.length = c * D → (∀ r ∈ lines, r.length = D) →
      fill_buffer D buf lines
        = Except.ok ((lines.take c).flatten ++ buf.drop (min c lines.length * D),
            min c lines.length) := by
  intro lines
  induction lines with
  | nil =>
      intro c buf hbuf hrows
      simp [fill_buffer]
  | cons r rs ih =>
      intro c buf hbuf hrows
      by_cases hb0 : buf.length = 0
      · have hc0 : c = 0 := by
          rcases Nat.mul_eq_zero.mp (hbuf ▸ hb0) with h | h
          · exact h
          · omega
        subst hc0
        simp [fill_buffer, hb0]
      · obtain ⟨c', rfl⟩ : ∃ c', c = c' + 1 := by
          refine ⟨c - 1, ?_⟩
          have : c ≠ 0 := fun h0 => hb0 (by rw [hbuf, h0, Nat.zero_mul])
          omega
        have hr : r.length = D := hrows r (by simp)
        have hlen : min D buf.length = D := by
          rw [hbuf]
          have : D ≤ (c' + 1) * D := Nat.le_mul_of_pos_left D (by omega)
          omega
        have hdlen : (buf.drop D).length = c' * D := by
          rw [List.length_drop, hbuf, Nat.succ_mul]
          omega
        rw [show fill_buffer D buf (r :: rs)
            = if buf.length = 0 then Except.ok (buf, 0)
              else if min D buf.length ≠ r.length then
                Except.error "Invalid record: mismatched markers and snps count."
              else
                match fill_buffer D (buf.drop D) rs with
                | Except.error e => Except.error e
                | Except.ok (tail, cnt) => Except.ok (r ++ tail, cnt + 1)
            from rfl]
        rw [if_neg hb0, if_neg (show ¬(min D buf.length ≠ r.length)
          from fun hne => hne (hlen.trans hr.symm))]
        rw [ih c' (buf.drop D) hdlen (fun r' hr' => hrows r' (by simp [hr']))]
        show Except.ok (r ++ ((rs.take c').flatten
            ++ (buf.drop D).drop (min c' rs.length * D)), min c' rs.length + 1)
          = Except.ok (((r :: rs).take (c' + 1)).flatten
            ++ buf.drop (min (c' + 1) (r :: rs).length * D), min (c' + 1) (r :: rs).length)
        rw [List.take_succ_cons, List.flatten_cons, List.drop_drop,
          show (r :: rs).length = rs.length + 1 from rfl, Nat.succ_min_succ,
          show (min c' rs.length + 1) * D = D + min c' rs.length * D from by
            rw [Nat.succ_mul]; omega,
          List.append_assoc]


/-! ### Merge of a worker's partial result into the shared accumulator
(src/lib.rs lines 277-284)

    for (buf_elem, common_matrix_elem) in
      threads_kins_buf.iter_mut().zip(res_matrix.iter_mut())
    {
      *common_matrix_elem += *buf_elem;
      *buf_elem = 0.0;
    }

Both buffers are `Vec<f64>` walked in lockstep, so they are modelled as
lists here; the function returns (new partial buffer, new accumulator). -/

def merge_and_clear : List ℚ → List ℚ → List ℚ × List ℚ
  | [], common => ([], common)
  | b :: bs, [] => (b :: bs, [])
  | b :: bs, c :: cs =>
    ((0 : ℚ) :: (merge_and_clear bs cs).1, (c + b) :: (merge_and_clear bs cs).2)

/-! ### Text-side collaborators (src/reader.rs and src/lib.rs)

Lines are `List Char` with the terminating newline already stripped; a file
is the list of its lines, and end of file is the empty list (read_line
returning `Ok(0)`). -/

/-- `consume_comments2` (src/reader.rs lines 11-33): strip leading `#`
comment lines, collecting their text; reaching end of file before a
non-comment line is the fatal "File is empty." error; otherwise the cursor
is left at the first non-comment line. -/
def consume_comments2 : List (List Char) → Except String (List (List Char) × List (List Char))
  | [] => Except.error "File is empty."
  | line :: rest =>
    if line.head? = some '#' then
      match consume_comments2 rest with
      | Except.error e => Except.error e
      | Except.ok (comments, remaining) => Except.ok (line.drop 1 :: comments, remaining)
    else Except.ok ([], line :: rest)

/-- Rust `str::split('\t')`, on decoded characters. -/
def split_tab_aux : List Char → List Char → List (List Char)
  | acc, [] => [acc.reverse]
  | acc, c :: cs =>
    if c = '\t' then acc.reverse :: split_tab_aux [] cs
    else split_tab_aux (c :: acc) cs

def split_tab (line : List Char) : List (List Char) := split_tab_aux [] line

/-- `GenoParser::consume_markers` (src/lib.rs lines 326-339): read the header
line, split it on tabs and discard the first token (the row-label
placeholder).  The source reads one line unconditionally and underflows on
a missing line; callers reach it only after `consume_comments2` succeeded,
which guarantees a line is present. -/
def consume_markers : List (List Char) → Except String (List (List Char) × List (List Char))
  | [] => Except.error "panic: marker header line missing."
  | line :: rest => Except.ok ((split_tab line).drop 1, rest)

/-- The state `GenoParser::new_with_file` builds: comments, marker names,
and the cursor parked at the first SNP record line. -/
structure GenoParser where
  comments : List (List Char)
  markers : List (List Char)
  snp_lines : List (List Char)
  hab_mapper : Char → Option ℚ

/-- `GenoParser::new_with_file` (src/lib.rs lines 53-64): consume the
comment block, then the marker header; either failure aborts construction. -/
def new_with_file (lines : List (List Char)) (hab_mapper : Char → Option ℚ) :
    Except String GenoParser :=
  match consume_comments2 lines with
  | Except.error e => Except.error e
  | Except.ok (comments, rest) =>
    match consume_markers rest with
    | Except.error e => Except.error e
    | Except.ok (markers, snp_lines) => Except.ok ⟨comments, markers, snp_lines, hab_mapper⟩

/-! ### Row-by-row decoding (`parse_snp_rec`, `GenoParserIter::next`,
src/lib.rs lines 436-463 and 484-503) -/

/-- Outcome of `parse_snp_rec`: a decoded `(row_id, snps)` pair, an
`io::Error` value (`Err`), or a process-aborting panic (`expect`). -/
inductive SnpRecResult
  | ok : List Char → List ℚ → SnpRecResult
  | ioError : String → SnpRecResult
  | panicked : String → SnpRecResult

/-- The `parse_snps` closure inside `parse_snp_rec`: map every character of
the value string through `hab_mapper`; a missing key is
`.expect("No key <..> in SNP mapper.")`, i.e. a panic. -/
def parse_snps_chars (hab_mapper : Char → Option ℚ) : List Char → Except String (List ℚ)
  | [] => Except.ok []
  | c :: cs =>
    match hab_mapper c with
    | none => Except.error "panic: No key in SNP mapper."
    | some v =>
      match parse_snps_chars hab_mapper cs with
      | Except.error e => Except.error e
      | Except.ok vs => Except.ok (v :: vs)

/-- `parse_snp_rec` (src/lib.rs lines 436-463): token 0 of the tab-split
line is the row id (`next().unwrap()`, never absent since a split yields at
least one token — the `[]` arm below is that dead branch); a missing second
token is the `io::Error` "invalid SNP record"; an unmapped character inside
the value string panics. -/
def parse_snp_rec (line : List Char) (hab_mapper : Char → Option ℚ) : SnpRecResult :=
  match split_tab line with
  | [] => SnpRecResult.ioError "This line is an invalid SNP record."
  | id :: rest =>
    match rest with
    | [] => SnpRecResult.ioError "This line is an invalid SNP record."
    | snp :: _ =>
      match parse_snps_chars hab_mapper snp with
      | Except.error e => SnpRecResult.panicked e
      | Except.ok vs => SnpRecResult.ok id vs

/-- `GenoParserIter::next` (src/lib.rs lines 488-502) on the remaining
lines: end of stream yields `none`; a parse `Err` is *logged with
`println!` and skipped* by the recursive `self.next()` call; a panic tears
the process down (`Except.error`).  On success the decoded record and the
remaining lines are returned. -/
def geno_parser_iter_next (hab_mapper : Char → Option ℚ) :
    List (List Char) → Except String (Option ((List Char × List ℚ) × List (List Char)))
  | [] => Except.ok none
  | line :: rest =>
    match parse_snp_rec line hab_mapper with
    | SnpRecResult.ok id snps => Except.ok (some ((id, snps), rest))
    | SnpRecResult.ioError _ => geno_parser_iter_next hab_mapper rest
    | SnpRecResult.panicked msg => Except.error msg

/-! ### Accelerator gating (`calc_kinship_parallel`, src/util/kinship.rs
lines 85-177)

The two probe steps (`lib::Library::new("libcudart.so")` /
`"libcublas.so"` and `check_gpu_device_availability`) are native calls;
their outcomes are the `GpuEnv` parameters.  Work-unit creation and thread
spawning inside the `for _ in 0..buf_num` loop are recorded as an event
trace so that "before any Worker is spawned" is visible in the result; the
steady-state dispatch loop after the pool is built does not matter to the
gating claim and is not modelled. -/

structure GpuEnv where
  cudart_loads : Bool
  cublas_loads : Bool
  device_available : Bool

inductive GPUerror
  | libLoad : String → GPUerror
  | noDevice : GPUerror

inductive PoolEvent
  | createWorkUnit
  | spawnWorker

/-- `calc_kinship_parallel`, up to and including pool construction: compute
`buf_num` (with the two-step probe and the `min(num_cpus, 10)` cap when
`on_gpu`), propagating any probe failure (`?` operators / early `return`)
before the spawn loop runs. -/
def calc_kinship_parallel (env : GpuEnv) (num_cpus : Nat) (on_gpu : Bool) :
    List PoolEvent × Except GPUerror Unit :=
  let buf_num : Except GPUerror Nat :=
    if on_gpu then
      if env.cudart_loads = false then Except.error (GPUerror.libLoad "libcudart.so")
      else if env.cublas_loads = false then Except.error (GPUerror.libLoad "libcublas.so")
      else if env.device_available = false then Except.error GPUerror.noDevice
      else Except.ok (min num_cpus 10)
    else Except.ok num_cpus
  match buf_num with
  | Except.error e => ([], Except.error e)
  | Except.ok n =>
    ((List.range n).flatMap fun _ => [PoolEvent.createWorkUnit, PoolEvent.spawnWorker],
      Except.ok ())

theorem calc_kinship_go_nil (D bs : Nat) :
    ∀ (fuel : Nat) (buf : List ℚ) (kbuf acc : Nat → ℚ) (total : Nat),
      calc_kinship_go D bs fuel [] buf kbuf acc total = Except.ok (acc, total) := by
  intro fuel
  cases fuel with
  | zero => intro buf kbuf acc total; rfl
  | succ fuel => intro buf kbuf acc total; rfl

theorem calc_kinship_go_succ_ok (D bs fuel : Nat) (lines : List (List ℚ))
    (buf buf1 : List ℚ) (n : Nat) (kbuf acc : Nat → ℚ) (total : Nat)
    (hfill : fill_buffer D buf lines = Except.ok (buf1, n)) :
    calc_kinship_go D bs (fuel + 1) lines buf kbuf acc total
      = if n = 0 then Except.ok (acc, total)
        else
          calc_kinship_go D bs fuel (lines.drop n)
            (if n < bs then buf1.take (n * D) else buf1) (fun _ => 0)
            (fun x => acc x + calc_partial_kinship
              (if n < bs then buf1.take (n * D) else buf1) kbuf D x)
            (total + n) := by
  have h : calc_kinship_go D bs (fuel + 1) lines buf kbuf acc total
      = (match fill_buffer D buf lines with
        | Except.error e => Except.error e
        | Except.ok (buf1, n) =>
          if n = 0 then Except.ok (acc, total)
          else
            calc_kinship_go D bs fuel (lines.drop n)
              (if n < bs then buf1.take (n * D) else buf1) (fun _ => 0)
              (fun x => acc x + calc_partial_kinship
                (if n < bs then buf1.take (n * D) else buf1) kbuf D x)
              (total + n)) := rfl
  rw [h, hfill]

theorem stream_upper_cell_nil (D x : Nat) :
    stream_upper_cell [] D x = 0 := by
  unfold stream_upper_cell
  split <;> simp

/-- The dispatch loop computes exactly the stream's covered-triangle sums on
top of the incoming accumulator, and counts exactly the stream's rows —
whatever the initial contents of the recycled read buffer were. -/
theorem calc_kinship_go_spec (D bs : Nat) (hD : 0 < D) (hbs : 0 < bs) :
    ∀ (fuel : Nat) (lines : List (List ℚ)) (buf : List ℚ) (acc : Nat → ℚ) (total : Nat),
      buf.length = bs * D → (∀ r ∈ lines, r.length = D) → lines.length ≤ fuel →
      calc_kinship_go D bs fuel lines buf (fun _ => 0) acc total
        = Except.ok (fun x => acc x + stream_upper_cell lines D x,
            total + lines.length) := by
  have hnil : ∀ (acc : Nat → ℚ) (total : Nat),
      (Except.ok (acc, total) : Except String ((Nat → ℚ) × Nat))
        = Except.ok (fun x => acc x + stream_upper_cell [] D x, total + 0) := by
    intro acc total
    have h1 : (fun x => acc x + stream_upper_cell [] D x) = acc := by
      funext x
      rw [stream_upper_cell_nil, add_zero]
    rw [h1, Nat.add_zero]
  intro fuel
  induction fuel with
  | zero =>
      intro lines buf acc total hbuf hrows hfuel
      have hl : lines = [] := List.eq_nil_of_length_eq_zero (by omega)
      subst hl
      exact (calc_kinship_go_nil D bs 0 buf _ acc total).trans (hnil acc total)
  | succ fuel ih =>
      intro lines buf acc total hbuf hrows hfuel
      cases lines with
      | nil => exact (calc_kinship_go_nil D bs _ buf _ acc total).trans (hnil acc total)
      | cons r rs =>
        have hlen : (r :: rs).length = rs.length + 1 := rfl
        have hfill := fill_buffer_spec D hD (r :: rs) bs buf hbuf hrows
        rw [hlen] at hfill
        rw [calc_kinship_go_succ_ok D bs fuel (r :: rs) buf _ _ _ acc total hfill]
        rw [if_neg (show ¬(min bs (rs.length + 1) = 0) from by omega)]
        by_cases hpart : rs.length + 1 < bs
        · -- partial final batch: rows_read < batch_size, truncation applies
          have hmin : min bs (rs.length + 1) = rs.length + 1 := by omega
          have htake : (r :: rs).take bs = r :: rs := List.take_of_length_le (by omega)
          have hflat : ((r :: rs).flatten).length = (rs.length + 1) * D :=
            (flatten_length_const hrows).trans (by rw [hlen])
          have htrunc : (((r :: rs).flatten)
              ++ buf.drop ((rs.length + 1) * D)).take ((rs.length + 1) * D)
              = (r :: rs).flatten := by
            have h2 := List.take_left ((r :: rs).flatten) (buf.drop ((rs.length + 1) * D))
            rw [hflat] at h2
            exact h2
          rw [hmin, if_pos (show rs.length + 1 < bs from hpart), htake, htrunc,
            show (r :: rs).drop (rs.length + 1) = [] from by
              rw [← hlen]; exact List.drop_length _,
            calc_kinship_go_nil]
          have hker : ∀ x, calc_partial_kinship ((r :: rs).flatten) (fun _ => 0) D x
              = stream_upper_cell (r :: rs) D x :=
            calc_partial_kinship_flatten (r :: rs) D hD hrows
          rw [show (fun x => acc x + calc_partial_kinship ((r :: rs).flatten)
              (fun _ => 0) D x)
              = fun x => acc x + stream_upper_cell (r :: rs) D x from
            funext fun x => by rw [hker x], hlen]
        · -- full batch: rows_read = batch_size, no truncation
          have hmin : min bs (rs.length + 1) = bs := by omega
          have hdrop : buf.drop (bs * D) = [] := by
            rw [← hbuf]
            exact List.drop_length buf
          have htb : ((r :: rs).take bs).length = bs := by
            rw [List.length_take, hlen]
            omega
          have hrows_take : ∀ r' ∈ (r :: rs).take bs, r'.length = D :=
            fun r' hr' => hrows r' (List.mem_of_mem_take hr')
          have hrows_drop : ∀ r' ∈ (r :: rs).drop bs, r'.length = D :=
            fun r' hr' => hrows r' (List.mem_of_mem_drop hr')
          have hflat : (((r :: rs).take bs).flatten).length = bs * D :=
            (flatten_length_const hrows_take).trans (by rw [htb])
          rw [hmin, if_neg (show ¬(bs < bs) from by omega), hdrop, List.append_nil]
          rw [ih ((r :: rs).drop bs) (((r :: rs).take bs).flatten) _ _ hflat hrows_drop
            (by rw [List.length_drop, hlen]; omega)]
          have hker : ∀ x, calc_partial_kinship (((r :: rs).take bs).flatten)
              (fun _ => 0) D x = stream_upper_cell ((r :: rs).take bs) D x :=
            calc_partial_kinship_flatten _ D hD hrows_take
          have hsplit : ∀ x, stream_upper_cell ((r :: rs).take bs) D x
              + stream_upper_cell ((r :: rs).drop bs) D x
              = stream_upper_cell (r :: rs) D x := by
            intro x
            rw [← stream_upper_cell_append, List.take_append_drop]
          have hfun : (fun x => (fun x => acc x + calc_partial_kinship
              (((r :: rs).take bs).flatten) (fun _ => 0) D x) x
                + stream_upper_cell ((r :: rs).drop bs) D x)
              = fun x => acc x + stream_upper_cell (r :: rs) D x := by
            funext x
            show acc x + calc_partial_kinship (((r :: rs).take bs).flatten)
                (fun _ => 0) D x + stream_upper_cell ((r :: rs).drop bs) D x
              = acc x + stream_upper_cell (r :: rs) D x
            rw [hker x, add_assoc, hsplit x]
          rw [hfun, show total + bs + ((r :: rs).drop bs).length
              = total + (r :: rs).length from by
            rw [List.length_drop, hlen]; omega, hlen]


theorem except_bind_ok {ε α β : Type} (a : α) (f : α → Except ε β) :
    (Except.ok a : Except ε α).bind f = f a := rfl

/-! ### The claims -/

/-- C1: for every batch of K rows of length D packed row-major in the input
buffer and every D×D accumulator, the CPU kernel (a) performs its additions
by folding its single `+=` over the loop-index sequence `kernel_trace`
(outer `j`, then batch rows, then `i` from `j` to `D-1`), (b) adds to each
covered cell `j*D + i` with `i ≥ j` the sum over batch rows of
`row[r][j] * row[r][i]`, and (c) leaves every cell with `i < j` unchanged. -/
theorem claim_c1_kernel_contract (snps : List ℚ) (n : Nat) (partial_matrix : Nat → ℚ) :
    (calc_partial_kinship snps partial_matrix n
      = List.foldl (fun pm e => kin_step snps n e.1 e.2.1 pm e.2.2) partial_matrix
          (kernel_trace n (snps.length / n))) ∧
    (∀ j i, j ≤ i → i < n →
      calc_partial_kinship snps partial_matrix n (j * n + i)
        = partial_matrix (j * n + i) + ∑ l ∈ Finset.range (snps.length / n),
            snps.getD (l * n + j) 0 * snps.getD (l * n + i) 0) ∧
    (∀ j i, i < j → j < n →
      calc_partial_kinship snps partial_matrix n (j * n + i)
        = partial_matrix (j * n + i)) := by
  refine ⟨calc_partial_kinship_eq_trace_foldl snps partial_matrix n, ?_, ?_⟩
  · intro j i hji hin
    rw [calc_partial_kinship_spec, flat_div j hin, flat_mod j hin,
      if_pos ⟨by omega, hji⟩]
  · intro j i hij hjn
    have hin : i < n := by omega
    rw [calc_partial_kinship_spec, flat_div j hin, flat_mod j hin,
      if_neg (show ¬(j < n ∧ j ≤ i) from fun h => by omega)]

theorem claim_c1_kernel_contract_witness :
    calc_partial_kinship [1, 2, 4, 5] (fun _ => 0) 2 (0 * 2 + 1)
      = (fun _ => (0 : ℚ)) (0 * 2 + 1)
        + ∑ l ∈ Finset.range (([1, 2, 4, 5] : List ℚ).length / 2),
          ([1, 2, 4, 5] : List ℚ).getD (l * 2 + 0) 0
            * ([1, 2, 4, 5] : List ℚ).getD (l * 2 + 1) 0 :=
  (claim_c1_kernel_contract [1, 2, 4, 5] 2 (fun _ => 0)).2.1 0 1 (by omega) (by omega)

/-- C2: finalization divides every covered (`i ≥ j`) cell by
`total_rows_processed`, mirrors it into the opposite cell, and the returned
matrix is fully populated and symmetric: `matrix[i*D + j] = matrix[j*D + i]`
for all `i, j < D`. -/
theorem claim_c2_finalize_symmetric (D : Nat) (acc : Nat → ℚ) (total : ℚ) :
    (∀ j i, j ≤ i → i < D →
      calc_kinship_finalize acc D total (j * D + i) = acc (j * D + i) / total) ∧
    (∀ j i, j ≤ i → i < D →
      calc_kinship_finalize acc D total (i * D + j)
        = calc_kinship_finalize acc D total (j * D + i)) ∧
    (∀ i j, i < D → j < D →
      calc_kinship_finalize acc D total (i * D + j)
        = calc_kinship_finalize acc D total (j * D + i)) := by
  have hspec : ∀ a b, a < D → b < D →
      calc_kinship_finalize acc D total (a * D + b)
        = if a ≤ b then acc (a * D + b) / total else acc (b * D + a) / total := by
    intro a b ha hb
    rw [calc_kinship_finalize_spec, flat_div a hb, flat_mod a hb, if_pos ⟨ha, hb⟩]
  have hsym : ∀ i j, i < D → j < D →
      calc_kinship_finalize acc D total (i * D + j)
        = calc_kinship_finalize acc D total (j * D + i) := by
    intro i j hi hj
    rw [hspec i j hi hj, hspec j i hj hi]
    by_cases hij : i ≤ j
    · rw [if_pos hij]
      by_cases hji : j ≤ i
      · have : i = j := by omega
        subst this
        rw [if_pos (le_refl i)]
      · rw [if_neg hji]
    · rw [if_neg hij, if_pos (by omega)]
  refine ⟨?_, ?_, hsym⟩
  · intro j i hji hiD
    rw [hspec j i (by omega) hiD, if_pos hji]
  · intro j i hji hiD
    exact hsym i j hiD (by omega)

theorem claim_c2_finalize_symmetric_witness :
    calc_kinship_finalize (fun _ => (17 : ℚ)) 2 2 (0 * 2 + 1)
        = (fun _ => (17 : ℚ)) (0 * 2 + 1) / 2 ∧
    calc_kinship_finalize (fun _ => (17 : ℚ)) 2 2 (1 * 2 + 0)
        = calc_kinship_finalize (fun _ => (17 : ℚ)) 2 2 (0 * 2 + 1) :=
  ⟨(claim_c2_finalize_symmetric 2 (fun _ => 17) 2).1 0 1 (by omega) (by omega),
   (claim_c2_finalize_symmetric 2 (fun _ => 17) 2).2.1 0 1 (by omega) (by omega)⟩

/-- C9: applying the mirror step (`mirror_and_scale_kinship` with scale 1)
to an already symmetric matrix returns exactly the same matrix, and hence
applying the mirror step twice equals applying it once. -/
theorem claim_c9_mirror_idempotent (D : Nat) :
    (∀ m : Nat → ℚ, (∀ i j, i < D → j < D → m (i * D + j) = m (j * D + i)) →
      mirror_and_scale_kinship m D 1 = m) ∧
    (∀ m : Nat → ℚ,
      mirror_and_scale_kinship (mirror_and_scale_kinship m D 1) D 1
        = mirror_and_scale_kinship m D 1) := by
  have h1 : ∀ m : Nat → ℚ, (∀ i j, i < D → j < D → m (i * D + j) = m (j * D + i)) →
      mirror_and_scale_kinship m D 1 = m := by
    intro m hsym
    funext x
    rw [mirror_and_scale_kinship_spec]
    by_cases hc : x / D < D ∧ x % D < D
    · rw [if_pos hc]
      by_cases hab : x / D ≤ x % D
      · rw [if_pos hab, mul_one]
      · rw [if_neg hab, mul_one, hsym (x % D) (x / D) hc.2 hc.1, Nat.div_add_mod' x D]
    · rw [if_neg hc]
  have h2 : ∀ (m : Nat → ℚ) (i j : Nat), i < D → j < D →
      mirror_and_scale_kinship m D 1 (i * D + j)
        = mirror_and_scale_kinship m D 1 (j * D + i) := by
    intro m i j hi hj
    rw [mirror_and_scale_kinship_spec, mirror_and_scale_kinship_spec,
      flat_div i hj, flat_mod i hj, flat_div j hi, flat_mod j hi,
      if_pos (show i < D ∧ j < D from ⟨hi, hj⟩),
      if_pos (show j < D ∧ i < D from ⟨hj, hi⟩)]
    by_cases hij : i ≤ j
    · rw [if_pos hij]
      by_cases hji : j ≤ i
      · have : i = j := by omega
        subst this
        rw [if_pos (le_refl i)]
      · rw [if_neg hji]
    · rw [if_neg hij, if_pos (by omega)]
  exact ⟨h1, fun m => h1 (mirror_and_scale_kinship m D 1) (h2 m)⟩

theorem claim_c9_mirror_idempotent_witness :
    mirror_and_scale_kinship (fun _ => (3 : ℚ)) 2 1 = (fun _ => (3 : ℚ)) :=
  (claim_c9_mirror_idempotent 2).1 (fun _ => 3) (fun _ _ _ _ => rfl)

/-- C10: after a worker's partial result buffer is merged into the shared
accumulator (each accumulator element incremented by the matching buffer
element), every element of the partial result buffer is zero. -/
theorem claim_c10_merge_zeroes_buffer :
    ∀ (kins_buf res_matrix : List ℚ), kins_buf.length = res_matrix.length →
      (merge_and_clear kins_buf res_matrix).1 = List.replicate kins_buf.length 0 ∧
      (merge_and_clear kins_buf res_matrix).2
        = List.zipWith (fun c b => c + b) res_matrix kins_buf := by
  intro kins_buf
  induction kins_buf with
  | nil =>
      intro res h
      have hres : res = [] := List.eq_nil_of_length_eq_zero h.symm
      subst hres
      exact ⟨rfl, rfl⟩
  | cons b bs ih =>
      intro res h
      cases res with
      | nil => simp at h
      | cons c cs =>
          have h2 : bs.length = cs.length := by simpa using h
          obtain ⟨ih1, ih2⟩ := ih cs h2
          constructor
          · show (0 : ℚ) :: (merge_and_clear bs cs).1 = List.replicate (bs.length + 1) 0
            rw [ih1]
            rfl
          · show (c + b) :: (merge_and_clear bs cs).2
              = List.zipWith (fun c b => c + b) (c :: cs) (b :: bs)
            rw [ih2]
            rfl

theorem claim_c10_merge_zeroes_buffer_witness :
    (merge_and_clear [5, 7] [1, 2]).1 = List.replicate ([5, 7] : List ℚ).length 0 ∧
    (merge_and_clear [5, 7] [1, 2]).2 = List.zipWith (fun c b => c + b) [1, 2] [5, 7] :=
  claim_c10_merge_zeroes_buffer [5, 7] [1, 2] rfl


/-- C3: when the stream runs out mid-batch, the final batch processes
exactly `rows_read` rows: the loop's result depends only on the stream's
rows (the read buffer's initial and leftover contents never reach the
accumulator), the row count is exactly the stream length, and the partial
fill reads exactly `rows_read` rows after which the buffer's logical prefix
of `rows_read * D` elements is exactly the freshly decoded rows. -/
theorem claim_c3_partial_batch_truncation (D bs fuel : Nat) (lines : List (List ℚ))
    (buf : List ℚ) (acc : Nat → ℚ) (total : Nat)
    (hD : 0 < D) (hbs : 0 < bs) (hbuf : buf.length = bs * D)
    (hrows : ∀ r ∈ lines, r.length = D) (hfuel : lines.length ≤ fuel) :
    (calc_kinship_go D bs fuel lines buf (fun _ => 0) acc total
      = Except.ok (fun x => acc x + stream_upper_cell lines D x,
          total + lines.length)) ∧
    (0 < lines.length → lines.length < bs →
      fill_buffer D buf lines
        = Except.ok (lines.flatten ++ buf.drop (lines.length * D), lines.length) ∧
      (lines.flatten ++ buf.drop (lines.length * D)).take (lines.length * D)
        = lines.flatten) := by
  refine ⟨calc_kinship_go_spec D bs hD hbs fuel lines buf acc total hbuf hrows hfuel, ?_⟩
  intro hpos hlt
  have hfill := fill_buffer_spec D hD lines bs buf hbuf hrows
  rw [show min bs lines.length = lines.length from by omega,
    List.take_of_length_le (show lines.length ≤ bs from by omega)] at hfill
  refine ⟨hfill, ?_⟩
  have hflat : lines.flatten.length = lines.length * D := flatten_length_const hrows
  have h2 := List.take_left lines.flatten (buf.drop (lines.length * D))
  rw [hflat] at h2
  exact h2

theorem claim_c3_partial_batch_truncation_witness :
    (calc_kinship_go 1 2 5 [[1], [2], [3], [4], [5]] [7, 7] (fun _ => 0) (fun _ => 0) 0
      = Except.ok (fun x => (fun _ => (0 : ℚ)) x
          + stream_upper_cell [[1], [2], [3], [4], [5]] 1 x,
          0 + ([[1], [2], [3], [4], [5]] : List (List ℚ)).length)) ∧
    (0 < ([[1], [2], [3], [4], [5]] : List (List ℚ)).length →
      ([[1], [2], [3], [4], [5]] : List (List ℚ)).length < 2 →
      fill_buffer 1 [7, 7] [[1], [2], [3], [4], [5]]
        = Except.ok (([[1], [2], [3], [4], [5]] : List (List ℚ)).flatten
            ++ ([7, 7] : List ℚ).drop
              (([[1], [2], [3], [4], [5]] : List (List ℚ)).length * 1),
            ([[1], [2], [3], [4], [5]] : List (List ℚ)).length) ∧
      (([[1], [2], [3], [4], [5]] : List (List ℚ)).flatten
          ++ ([7, 7] : List ℚ).drop
            (([[1], [2], [3], [4], [5]] : List (List ℚ)).length * 1)).take
          (([[1], [2], [3], [4], [5]] : List (List ℚ)).length * 1)
        = ([[1], [2], [3], [4], [5]] : List (List ℚ)).flatten) :=
  claim_c3_partial_batch_truncation 1 2 5 [[1], [2], [3], [4], [5]] [7, 7]
    (fun _ => 0) 0 (by omega) (by omega) (by rfl)
    (by intro r hr; fin_cases hr <;> rfl) (by simp)

/-- C5: if the exhausted stream supplied fewer than D rows, `calc_kinship`
fails with the fatal configuration error (the source `assert!`) and returns
no matrix, even though every batch decoded successfully. -/
theorem claim_c5_too_few_rows_fatal (D bs : Nat) (lines : List (List ℚ))
    (hD : 0 < D) (hbs : 1 ≤ bs) (hrows : ∀ r ∈ lines, r.length = D)
    (hlt : lines.length < D) :
    calc_kinship lines D bs
      = Except.error "Amount of SNPS should be greater or equal to amount of ids." := by
  unfold calc_kinship
  rw [if_neg (show ¬(bs < 1) from by omega),
    calc_kinship_go_spec D bs hD (by omega) lines.length lines _ _ 0
      (by rw [List.length_replicate]) hrows (le_refl _),
    except_bind_ok]
  show (if 0 + lines.length < D then
      Except.error "Amount of SNPS should be greater or equal to amount of ids."
    else _) = _
  rw [if_pos (show 0 + lines.length < D from by omega)]

theorem claim_c5_too_few_rows_fatal_witness :
    calc_kinship [[1, 1]] 2 1
      = Except.error "Amount of SNPS should be greater or equal to amount of ids." :=
  claim_c5_too_few_rows_fatal 2 1 [[1, 1]] (by omega) (by omega)
    (by intro r hr; fin_cases hr; rfl) (by simp)

/-- C6: with acceleration requested, if either probe step fails (a runtime
library does not load, or no compatible device is present),
`calc_kinship_parallel` returns a GPU capability error and its event trace
is empty: no Work Unit was created and no worker thread was spawned, and
there is no fallback to the CPU kernel. -/
theorem claim_c6_gpu_probe_gating (env : GpuEnv) (num_cpus : Nat)
    (h : env.cudart_loads = false ∨ env.cublas_loads = false ∨
      env.device_available = false) :
    (calc_kinship_parallel env num_cpus true).1 = [] ∧
    ∃ e : GPUerror, (calc_kinship_parallel env num_cpus true).2 = Except.error e := by
  rcases env with ⟨cu, cb, dev⟩
  cases cu with
  | false => exact ⟨rfl, ⟨GPUerror.libLoad "libcudart.so", rfl⟩⟩
  | true =>
    cases cb with
    | false => exact ⟨rfl, ⟨GPUerror.libLoad "libcublas.so", rfl⟩⟩
    | true =>
      cases dev with
      | false => exact ⟨rfl, ⟨GPUerror.noDevice, rfl⟩⟩
      | true => simp at h

theorem claim_c6_gpu_probe_gating_witness :
    (calc_kinship_parallel ⟨false, true, true⟩ 4 true).1 = [] ∧
    ∃ e : GPUerror, (calc_kinship_parallel ⟨false, true, true⟩ 4 true).2
      = Except.error e :=
  claim_c6_gpu_probe_gating ⟨false, true, true⟩ 4 (Or.inl rfl)

/-- C8: an input that reaches end of file before any non-comment line
(zero data rows, no header) makes parser construction fail with the
"File is empty." format error; no parser — hence no matrix — is produced. -/
theorem claim_c8_empty_input_format_error (lines : List (List Char))
    (hab_mapper : Char → Option ℚ) (h : ∀ l ∈ lines, l.head? = some '#') :
    new_with_file lines hab_mapper = Except.error "File is empty." := by
  have hcc : ∀ (ls : List (List Char)), (∀ l ∈ ls, l.head? = some '#') →
      consume_comments2 ls = Except.error "File is empty." := by
    intro ls
    induction ls with
    | nil => intro _; rfl
    | cons l ls ih =>
        intro hall
        show (if l.head? = some '#' then
            match consume_comments2 ls with
            | Except.error e => Except.error e
            | Except.ok (comments, remaining) =>
              Except.ok (l.drop 1 :: comments, remaining)
          else Except.ok ([], l :: ls)) = Except.error "File is empty."
        rw [if_pos (hall l (by simp)), ih (fun l2 hl2 => hall l2 (by simp [hl2]))]
  unfold new_with_file
  rw [hcc lines h]

theorem claim_c8_empty_input_format_error_witness :
    new_with_file [['#', 'c']] (fun _ => none) = Except.error "File is empty." :=
  claim_c8_empty_input_format_error [['#', 'c']] (fun _ => none) (by decide)


/-- C4 (divergence witness): the public row iterator `GenoParserIter::next`
does NOT treat a decode failure as fatal — on a data row with no tab
separator it logs, skips to the next line and returns that line's record.
Here the malformed first line is silently skipped. -/
theorem claim_c4_iter_skips_bad_line :
    geno_parser_iter_next (fun c => if c = 'A' then some 1 else none)
      [['b', 'a', 'd'], ['i', 'd', '\t', 'A']]
      = Except.ok (some ((['i', 'd'], [1]), [])) := by
  rfl

/-- C7: for D = 2 and the stream rows [1,2] and [4,5] (packed row-major as
[1,2,4,5]), the unnormalized accumulator holds 17 at cell (0,0) (flat 0),
22 at cell (0,1) (flat 1), 29 at cell (1,1) (flat 3); after mirroring
(scale 1), matrix[1][0] (flat 2) = matrix[0][1] (flat 1) = 22; after
normalizing by total_rows = 2, matrix[0][0] = 8.5. -/
theorem claim_c7_closed_form_check :
    calc_partial_kinship [1, 2, 4, 5] (fun _ => 0) 2 0 = 17 ∧
    calc_partial_kinship [1, 2, 4, 5] (fun _ => 0) 2 1 = 22 ∧
    calc_partial_kinship [1, 2, 4, 5] (fun _ => 0) 2 3 = 29 ∧
    mirror_and_scale_kinship (calc_partial_kinship [1, 2, 4, 5] (fun _ => 0) 2) 2 1 2
      = 22 ∧
    mirror_and_scale_kinship (calc_partial_kinship [1, 2, 4, 5] (fun _ => 0) 2) 2 1 1
      = 22 ∧
    calc_kinship_finalize
      (mirror_and_scale_kinship (calc_partial_kinship [1, 2, 4, 5] (fun _ => 0) 2) 2 1)
      2 2 0 = 8.5 := by
  have k0 : calc_partial_kinship [1, 2, 4, 5] (fun _ => 0) 2 0 = 17 := by
    rw [calc_partial_kinship_spec]
    norm_num [Finset.sum_range_succ]
  have k1 : calc_partial_kinship [1, 2, 4, 5] (fun _ => 0) 2 1 = 22 := by
    rw [calc_partial_kinship_spec]
    norm_num [Finset.sum_range_succ]
  have k3 : calc_partial_kinship [1, 2, 4, 5] (fun _ => 0) 2 3 = 29 := by
    rw [calc_partial_kinship_spec]
    norm_num [Finset.sum_range_succ]
  have m2 : mirror_and_scale_kinship (calc_partial_kinship [1, 2, 4, 5] (fun _ => 0) 2)
      2 1 2 = 22 := by
    rw [mirror_and_scale_kinship_spec]
    norm_num
    exact k1
  have m1 : mirror_and_scale_kinship (calc_partial_kinship [1, 2, 4, 5] (fun _ => 0) 2)
      2 1 1 = 22 := by
    rw [mirror_and_scale_kinship_spec]
    norm_num
    exact k1
  have f0 : calc_kinship_finalize
      (mirror_and_scale_kinship (calc_partial_kinship [1, 2, 4, 5] (fun _ => 0) 2) 2 1)
      2 2 0 = 8.5 := by
    rw [calc_kinship_finalize_spec]
    norm_num
    rw [mirror_and_scale_kinship_spec]
    norm_num
    rw [k0]
  exact ⟨k0, k1, k3, m2, m1, f0⟩

end RqtlKinship
